import Mathlib

/-!
Verification of the TM1637 4-digit 7-segment display driver
(`tm1637.cpp` / `tm1637.hpp`).

The embedding models the driver at byte level: a wire transaction is a
list of `Wire` events (start condition, byte written LSB-first, stop
condition).  Characters are modelled by their numeric codes (`Nat`),
exactly as the C++ source compares them numerically (`ch == 32`,
`ch >= 65`, ...).  Segment sequences (`std::vector<uint8_t>`) are
`List Nat`.  Fallible operations (`std::vector::at`, which throws, and
`std::vector::operator[]` out of bounds, which is undefined behaviour)
are modelled with `Option` / `Except`; an `Except.error` carries the
wire events emitted before the failure.
-/

/-- A byte-level event on the two-wire bus. -/
inductive Wire where
  | start : Wire
  | stop : Wire
  | byte : Nat → Wire
deriving DecidableEq

/-- TM1637 command for sending data to the display (`TM1637_CMD1`). -/
def TM1637_CMD1 : Nat := 0x40

/-- TM1637 command for addressing a specific digit (`TM1637_CMD2`). -/
def TM1637_CMD2 : Nat := 0xC0

/-- TM1637 command for controlling the display (`TM1637_CMD3`). -/
def TM1637_CMD3 : Nat := 0x80

/-- Display-on flag (`TM1637_DSP_ON`). -/
def TM1637_DSP_ON : Nat := 0x08

/-- MSB indicating the decimal point or colon (`TM1637_MSB`). -/
def TM1637_MSB : Nat := 0x80

/-- The 39-entry segment lookup table `_SEGMENTS` (digits 0-9, letters
a-z, space, dash, star), byte for byte from the source. -/
def _SEGMENTS : List Nat :=
  [0x3F, 0x06, 0x5B, 0x4F, 0x66, 0x6D, 0x7D, 0x07, 0x7F, 0x6F,
   0x77, 0x7C, 0x39, 0x5E, 0x79, 0x71, 0x3D, 0x76, 0x06, 0x1E,
   0x76, 0x38, 0x55, 0x54, 0x5C, 0x73, 0x67, 0x50, 0x6D, 0x78,
   0x3E, 0x1C, 0x2A, 0x76, 0x6E, 0x5B, 0x00, 0x40, 0x63]

/-- Numeric character codes of a string, as a C++ `std::string` holds
them (used to feed the driver functions with string literals). -/
def strOf (s : String) : List Nat := s.toList.map Char.toNat

namespace TM1637

/-- `TM1637::encode_char`: character code to segment byte, by the
source's numeric range checks (space, star, dash, A-Z, a-z, 0-9,
fallback star). -/
def encode_char (ch : Nat) : Nat :=
  if ch = 32 then _SEGMENTS.getD 36 0
  else if ch = 42 then _SEGMENTS.getD 38 0
  else if ch = 45 then _SEGMENTS.getD 37 0
  else if 65 ≤ ch ∧ ch ≤ 90 then _SEGMENTS.getD (ch - 55) 0
  else if 97 ≤ ch ∧ ch ≤ 122 then _SEGMENTS.getD (ch - 87) 0
  else if 48 ≤ ch ∧ ch ≤ 57 then _SEGMENTS.getD (ch - 48) 0
  else _SEGMENTS.getD 38 0

/-- `TM1637::encode_digit`: `_SEGMENTS[digit & 0x0f]`. -/
def encode_digit (digit : Nat) : Nat := _SEGMENTS.getD (digit &&& 0x0f) 0

/-- Number of characters of `str` that are not `'.'` (code 46) — the
first pass of `TM1637::encode_string` (`if (str.at(i) != '.') ++d;`). -/
def nondot (str : List Nat) : Nat := (str.filter (fun ch => ch != 46)).length

/-- The second pass of `TM1637::encode_string`: walk the characters
with write cursor `j` over the pre-sized segment vector.  A `'.'` with
`j > 0` ORs `TM1637_MSB` into entry `j - 1` (`segments.at(j-1)`, which
throws when out of bounds, hence the inner check); any other character
— including a `'.'` with `j = 0` — is stored via `segments[j] =
encode_char(...)`, whose out-of-bounds case is undefined behaviour,
modelled as `none`. -/
def encodeLoop : List Nat → List Nat → Nat → Option (List Nat)
  | [], segments, _ => some segments
  | ch :: rest, segments, j =>
    if ch = 46 ∧ 0 < j then
      if j - 1 < segments.length then
        encodeLoop rest
          (segments.set (j - 1) (segments.getD (j - 1) 0 ||| TM1637_MSB)) j
      else none
    else
      if j < segments.length then
        encodeLoop rest (segments.set j (encode_char ch)) (j + 1)
      else none

/-- `TM1637::encode_string`: count the non-dot characters, resize the
segment vector to that count (zero-filled), run the merging loop, then
right-pad with blanks (`encode_char(' ')`) until the length is at
least 6. -/
def encode_string (str : List Nat) : Option (List Nat) :=
  (encodeLoop str (List.replicate (nondot str) 0) 0).map
    (fun segments => segments ++ List.replicate (6 - segments.length) (encode_char 32))

/-- `_write_data_cmd()`: start, byte `0x40`, stop. -/
def dataCmd : List Wire := [Wire.start, Wire.byte TM1637_CMD1, Wire.stop]

/-- `_write_dsp_ctrl()`: start, byte `0x80 | 0x08 | brightness_`, stop. -/
def dspCtrl (brightness_ : Nat) : List Wire :=
  [Wire.start, Wire.byte (TM1637_CMD3 ||| TM1637_DSP_ON ||| brightness_), Wire.stop]

/-- The segment loop of `TM1637::write`:
`for (i = 0; i < segments.size(); ++i)
   _write_byte(segments.at(uint8_t(i / 3) * 6 + 2 - i));`.
The index is computed as the C++ expression does (`uint8_t` truncation
of `i / 3`, the subtraction done in a type where a negative value wraps
far past any vector length, hence certainly out of bounds).  Returns
the bytes emitted so far and whether the loop completed (`false` means
`std::vector::at` threw `std::out_of_range`).  `fuel` starts at
`segments.length` which always suffices. -/
def writeSegsAux (segments : List Nat) : Nat → Nat → List Wire × Bool
  | _, 0 => ([], true)
  | i, fuel + 1 =>
    if i < segments.length then
      let idx : Int := (((i / 3) % 256 : Nat) : Int) * 6 + 2 - (i : Int)
      if 0 ≤ idx ∧ idx.toNat < segments.length then
        let r := writeSegsAux segments (i + 1) fuel
        (Wire.byte (segments.getD idx.toNat 0) :: r.1, r.2)
      else ([], false)
    else ([], true)

/-- The full segment loop of `TM1637::write`, from `i = 0`. -/
def writeSegs (segments : List Nat) : List Wire × Bool :=
  writeSegsAux segments 0 segments.length

/-- `TM1637::write(segments, pos)`: clamp `pos` to at most 5, issue the
Data command, start, the address byte `0xC0 | pos`, the permuted
segment bytes, stop, then the Display-control command.  If the segment
loop throws, the transaction is cut short after the bytes emitted so
far (`Except.error` carries that prefix). -/
def write (segments : List Nat) (pos brightness_ : Nat) :
    Except (List Wire) (List Wire) :=
  let p := min pos 5
  let pre := dataCmd ++ [Wire.start, Wire.byte (TM1637_CMD2 ||| p)]
  let r := writeSegs segments
  if r.2 then Except.ok (pre ++ r.1 ++ [Wire.stop] ++ dspCtrl brightness_)
  else Except.error (pre ++ r.1)

/-- `TM1637::brightness(val)`: store `val & 0x07`, issue the Data
command then the Display-control command (with the new value), return
the stored value.  Result: (new `brightness_`, returned value, wire
trace); the old `brightness_` is overwritten unconditionally. -/
def brightness (brightness_old val : Nat) : Nat × Nat × List Wire :=
  let b := val &&& 0x07
  (b, b, dataCmd ++ dspCtrl b)

/-- Decimal digit characters of `n`, most significant first, with
explicit fuel (`fuel > n` always suffices).  Models what
`std::stringstream << std::dec << n` produces for an unsigned value. -/
def decReprAux : Nat → Nat → List Nat
  | 0, _ => []
  | fuel + 1, n =>
    if n < 10 then [48 + n] else decReprAux fuel (n / 10) ++ [48 + n % 10]

/-- Decimal digit characters of `n`, most significant first. -/
def decRepr (n : Nat) : List Nat := decReprAux (n + 1) n

/-- `std::setw(6)` formatting: right-align in a field of width 6,
space-filled; wider values are not truncated. -/
def fmt6 (n : Nat) : List Nat :=
  let ds := decRepr n
  List.replicate (6 - ds.length) 32 ++ ds

/-- `TM1637::number(num)`: format the `uint32_t` value as width-6
decimal text and push it through `encode_string` and `write` at
position 0. -/
def number (num brightness_ : Nat) : Except (List Wire) (List Wire) :=
  match encode_string (fmt6 (num % 4294967296)) with
  | none => Except.error []
  | some segments => write segments 0 brightness_

/-- `TM1637::show(str, colon)`: encode the string and write it at
position 0.  The pair returned is (the `brightness_` member after the
call, the wire outcome): `show` never assigns `brightness_`, so the
state component is passed through unchanged. -/
def show' (str : List Nat) (colon : Bool) (brightness_ : Nat) :
    Nat × Except (List Wire) (List Wire) :=
  (brightness_,
   match encode_string str with
   | none => Except.error []
   | some segments => write segments 0 brightness_)

/-- Reference folding of a character list into segment bytes following
the spec's description of dot handling: a `'.'` ORs the MSB into the
immediately preceding segment byte and occupies no slot of its own;
any other character appends its `encode_char` byte.  Compared against
`encode_string` in the dot-merging claims. -/
def mergeDots (acc : List Nat) : List Nat → List Nat
  | [] => acc
  | ch :: rest =>
    if ch = 46 then
      mergeDots (acc.dropLast ++ [acc.getLast?.getD 0 ||| TM1637_MSB]) rest
    else mergeDots (acc ++ [encode_char ch]) rest

/-- The blank pattern named by the spec (table entry 36). -/
def blank_pattern : Nat := _SEGMENTS.getD 36 0

/-- The star pattern named by the spec (table entry 38). -/
def star_pattern : Nat := _SEGMENTS.getD 38 0

/-- The dash pattern named by the spec (table entry 37). -/
def dash_pattern : Nat := _SEGMENTS.getD 37 0

/-- The letter pattern named by the spec: table entries 10-35 hold the
letters a-z, shared by the uppercase and lowercase ranges. -/
def letter_pattern (k : Nat) : Nat := _SEGMENTS.getD (10 + k) 0

/-- The digit pattern named by the spec (table entries 0-9). -/
def digit_pattern (d : Nat) : Nat := _SEGMENTS.getD d 0

/-- `encode_char` as the spec words it: priority order space → blank,
`*` → star, `-` → dash, `A`-`Z` → letter pattern, `a`-`z` → the same
letter pattern, `0`-`9` → digit pattern, anything else → star. -/
def encode_char_spec (ch : Nat) : Nat :=
  if ch = 32 then blank_pattern
  else if ch = 42 then star_pattern
  else if ch = 45 then dash_pattern
  else if 65 ≤ ch ∧ ch ≤ 90 then letter_pattern (ch - 65)
  else if 97 ≤ ch ∧ ch ≤ 122 then letter_pattern (ch - 97)
  else if 48 ≤ ch ∧ ch ≤ 57 then digit_pattern (ch - 48)
  else star_pattern

/-! ### List helper lemmas -/

theorem getD_append_left (l t : List Nat) (i : Nat) (h : i < l.length) :
    (l ++ t).getD i 0 = l.getD i 0 := by
  induction l generalizing i with
  | nil => simp at h
  | cons a l ih =>
    cases i with
    | zero => rfl
    | succ n =>
      show (l ++ t).getD n 0 = l.getD n 0
      exact ih n (by simpa using h)

theorem set_append_left (l t : List Nat) (i v : Nat) (h : i < l.length) :
    (l ++ t).set i v = l.set i v ++ t := by
  induction l generalizing i with
  | nil => simp at h
  | cons a l ih =>
    cases i with
    | zero => rfl
    | succ n =>
      show a :: (l ++ t).set n v = a :: l.set n v ++ t
      rw [ih n (by simpa using h)]
      rfl

theorem set_append_cursor (l t : List Nat) (v : Nat) :
    (l ++ t).set l.length v = l ++ t.set 0 v := by
  induction l with
  | nil => rfl
  | cons a l ih =>
    show a :: (l ++ t).set l.length v = a :: (l ++ t.set 0 v)
    rw [ih]

theorem set_last_eq (l : List Nat) (v : Nat) (h : l ≠ []) :
    l.set (l.length - 1) v = l.dropLast ++ [v] := by
  induction l with
  | nil => exact absurd rfl h
  | cons a t ih =>
    cases t with
    | nil => rfl
    | cons b t' =>
      show a :: (b :: t').set ((b :: t').length - 1) v =
        a :: ((b :: t').dropLast ++ [v])
      rw [ih (by simp)]

theorem getD_last_eq (l : List Nat) (h : l ≠ []) :
    l.getD (l.length - 1) 0 = l.getLast?.getD 0 := by
  induction l with
  | nil => exact absurd rfl h
  | cons a t ih =>
    cases t with
    | nil => rfl
    | cons b t' =>
      show (b :: t').getD ((b :: t').length - 1) 0 = (a :: b :: t').getLast?.getD 0
      rw [List.getLast?_cons_cons]
      exact ih (by simp)

/-! ### `nondot` lemmas -/

theorem nondot_nil : nondot [] = 0 := rfl

theorem nondot_cons_dot (rest : List Nat) : nondot (46 :: rest) = nondot rest := rfl

theorem nondot_cons_of_ne (ch : Nat) (rest : List Nat) (h : ch ≠ 46) :
    nondot (ch :: rest) = nondot rest + 1 := by
  have hb : (ch != 46) = true := by simpa using h
  simp [nondot, List.filter_cons, hb]

theorem nondot_of_no_dot (cs : List Nat) (h : ∀ c ∈ cs, c ≠ 46) :
    nondot cs = cs.length := by
  induction cs with
  | nil => rfl
  | cons c rest ih =>
    rw [nondot_cons_of_ne c rest (h c (by simp)),
      ih (fun x hx => h x (by simp [hx]))]
    rfl

/-! ### The encoding loop computes the dot-merging fold

The key invariant of `TM1637::encode_string`'s second pass: with `acc`
the segments already emitted (the cursor `j` sits at `acc.length`) and
`k` zero slots still unwritten, the loop fills the vector exactly as
the spec's dot-merging fold describes — provided no leading dot is met
while nothing has been emitted yet. -/

theorem encodeLoop_eq_mergeDots :
    ∀ (cs acc : List Nat) (k : Nat),
      (acc = [] → cs.head? ≠ some 46) → k = nondot cs →
      encodeLoop cs (acc ++ List.replicate k 0) acc.length =
        some (mergeDots acc cs) := by
  intro cs
  induction cs with
  | nil =>
    intro acc k _ hk
    rw [nondot_nil] at hk
    subst hk
    simp [encodeLoop, mergeDots]
  | cons ch rest ih =>
    intro acc k hhead hk
    by_cases hdot : ch = 46
    · subst hdot
      have hacc : acc ≠ [] := fun h0 => hhead h0 (by simp)
      have hlen : 0 < acc.length := List.length_pos.mpr hacc
      have hidx : acc.length - 1 < acc.length := by omega
      have hbound : acc.length - 1 < (acc ++ List.replicate k 0).length := by
        rw [List.length_append, List.length_replicate]
        omega
      rw [encodeLoop]
      rw [if_pos ⟨rfl, hlen⟩, if_pos hbound,
        getD_append_left _ _ _ hidx, getD_last_eq acc hacc,
        set_append_left _ _ _ _ hidx, set_last_eq acc _ hacc]
      have hlen2 :
          (acc.dropLast ++ [acc.getLast?.getD 0 ||| TM1637_MSB]).length =
            acc.length := by
        rw [List.length_append, List.length_dropLast]
        simp
        omega
      rw [← hlen2,
        ih (acc.dropLast ++ [acc.getLast?.getD 0 ||| TM1637_MSB]) k
          (fun h0 => absurd h0 (by simp))
          (by rwa [nondot_cons_dot] at hk)]
      rw [mergeDots, if_pos rfl]
    · have hk1 : k = nondot rest + 1 := by
        rwa [nondot_cons_of_ne ch rest hdot] at hk
      subst hk1
      have hcond : ¬(ch = 46 ∧ 0 < acc.length) := fun hc => hdot hc.1
      have hbound :
          acc.length < (acc ++ List.replicate (nondot rest + 1) 0).length := by
        rw [List.length_append, List.length_replicate]
        omega
      rw [encodeLoop]
      rw [if_neg hcond, if_pos hbound, set_append_cursor]
      have hrepl : (List.replicate (nondot rest + 1) 0).set 0 (encode_char ch) =
          encode_char ch :: List.replicate (nondot rest) 0 := rfl
      rw [hrepl, List.append_cons]
      have hcur : (acc ++ [encode_char ch]).length = acc.length + 1 := by
        rw [List.length_append]
        rfl
      rw [← hcur,
        ih (acc ++ [encode_char ch]) (nondot rest)
          (fun h0 => absurd h0 (by simp)) rfl]
      rw [mergeDots, if_neg hdot]

theorem mergeDots_length :
    ∀ (cs acc : List Nat), (acc = [] → cs.head? ≠ some 46) →
      (mergeDots acc cs).length = acc.length + nondot cs := by
  intro cs
  induction cs with
  | nil =>
    intro acc _
    simp [mergeDots, nondot_nil]
  | cons ch rest ih =>
    intro acc hhead
    by_cases hdot : ch = 46
    · subst hdot
      have hacc : acc ≠ [] := fun h0 => hhead h0 (by simp)
      have hlen : 0 < acc.length := List.length_pos.mpr hacc
      rw [mergeDots, if_pos rfl, ih _ (fun h0 => absurd h0 (by simp)),
        nondot_cons_dot]
      rw [List.length_append, List.length_dropLast]
      simp
      omega
    · rw [mergeDots, if_neg hdot, ih _ (fun h0 => absurd h0 (by simp)),
        nondot_cons_of_ne ch rest hdot]
      rw [List.length_append]
      simp
      omega

theorem mergeDots_no_dot :
    ∀ (cs acc : List Nat), (∀ c ∈ cs, c ≠ 46) →
      mergeDots acc cs = acc ++ cs.map encode_char := by
  intro cs
  induction cs with
  | nil =>
    intro acc _
    simp [mergeDots]
  | cons ch rest ih =>
    intro acc h
    rw [mergeDots, if_neg (h ch (by simp)),
      ih _ (fun x hx => h x (by simp [hx]))]
    simp

theorem encode_string_no_dot (cs : List Nat) (h : ∀ c ∈ cs, c ≠ 46) :
    encode_string cs =
      some (cs.map encode_char ++
        List.replicate (6 - cs.length) (encode_char 32)) := by
  have hhead : cs.head? ≠ some 46 := by
    cases cs with
    | nil => simp
    | cons c rest =>
      simp only [List.head?_cons]
      intro hc
      exact h c (by simp) (Option.some.inj hc)
  have hloop := encodeLoop_eq_mergeDots cs [] (nondot cs) (fun _ => hhead) rfl
  rw [List.nil_append, mergeDots_no_dot cs [] h, List.nil_append] at hloop
  simp only [List.length_nil] at hloop
  simp only [encode_string, hloop, Option.map_some']
  rw [List.length_map]

/-! ### `write` on sequences of the expected length 6 -/

theorem write_six (l : List Nat) (pos brightness_ : Nat) (h : l.length = 6) :
    write l pos brightness_ =
      Except.ok (dataCmd ++ [Wire.start, Wire.byte (TM1637_CMD2 ||| min pos 5)] ++
        (List.range 6).map (fun i => Wire.byte (l.getD ((i / 3) * 6 + 2 - i) 0)) ++
        [Wire.stop] ++ dspCtrl brightness_) := by
  rcases l with _ | ⟨a, _ | ⟨b, _ | ⟨c, _ | ⟨d, _ | ⟨e, _ | ⟨f, _ | ⟨g, t⟩⟩⟩⟩⟩⟩⟩ <;>
    first
      | rfl
      | simp at h

/-! ### Decimal formatting lemmas -/

theorem decReprAux_digits :
    ∀ (fuel n c : Nat), c ∈ decReprAux fuel n → 48 ≤ c ∧ c ≤ 57 := by
  intro fuel
  induction fuel with
  | zero =>
    intro n c hc
    simp [decReprAux] at hc
  | succ fuel ih =>
    intro n c hc
    rw [decReprAux] at hc
    by_cases h : n < 10
    · simp [h] at hc
      omega
    · simp [h] at hc
      rcases hc with hc | hc
      · exact ih _ _ hc
      · have : n % 10 < 10 := Nat.mod_lt _ (by omega)
        omega

theorem decReprAux_length :
    ∀ (fuel k n : Nat), n < fuel → n < 10 ^ k → 0 < k →
      (decReprAux fuel n).length ≤ k := by
  intro fuel
  induction fuel with
  | zero =>
    intro k n h _ _
    omega
  | succ fuel ih =>
    intro k n hfuel hk hkpos
    rw [decReprAux]
    by_cases h : n < 10
    · simp [h]
      omega
    · rw [if_neg h, List.length_append]
      rcases k with _ | _ | k
      · omega
      · simp at hk
        omega
      · have hdiv : n / 10 < fuel := by
          have hlt : n / 10 < n := Nat.div_lt_self (by omega) (by omega)
          omega
        have hdiv10 : n / 10 < 10 ^ (k + 1) := by
          rw [Nat.div_lt_iff_lt_mul (by omega : 0 < 10)]
          calc n < 10 ^ (k + 2) := hk
            _ = 10 ^ (k + 1) * 10 := by ring
        have := ih (k + 1) (n / 10) hdiv hdiv10 (by omega)
        simp
        omega

theorem decRepr_length_le (n k : Nat) (h : n < 10 ^ k) (hk : 0 < k) :
    (decRepr n).length ≤ k :=
  decReprAux_length (n + 1) k n (by omega) h hk

theorem decRepr_digits (n c : Nat) (h : c ∈ decRepr n) : 48 ≤ c ∧ c ≤ 57 :=
  decReprAux_digits (n + 1) n c h

theorem fmt6_no_dot (n : Nat) : ∀ c ∈ fmt6 n, c ≠ 46 := by
  intro c hc
  simp only [fmt6, List.mem_append, List.mem_replicate] at hc
  rcases hc with hc | hc
  · omega
  · have := decRepr_digits n c hc
    omega

theorem fmt6_length (n : Nat) (h : (decRepr n).length ≤ 6) :
    (fmt6 n).length = 6 := by
  simp only [fmt6, List.length_append, List.length_replicate]
  omega

/-! ### Claims -/

/-- Claim C1: for every 6-entry segment sequence and every position,
`write` emits the segment bytes on the wire in the permuted
source-index order 2,1,0,5,4,3 — the i-th segment byte written (i in
0-5) is the sequence entry at index `(i/3)*6+2-i`. -/
theorem claim_c1_write_permutation (segments : List Nat)
    (pos brightness_ : Nat) (h : segments.length = 6) :
    write segments pos brightness_ =
      Except.ok (dataCmd ++ [Wire.start, Wire.byte (TM1637_CMD2 ||| min pos 5)] ++
        (List.range 6).map
          (fun i => Wire.byte (segments.getD ((i / 3) * 6 + 2 - i) 0)) ++
        [Wire.stop] ++ dspCtrl brightness_) :=
  write_six segments pos brightness_ h

/-- Witness for C1 at the sequence [9,8,7,6,5,4], position 2,
brightness 3: the segment bytes go out as entries 2,1,0,5,4,3. -/
theorem claim_c1_witness :
    write [9, 8, 7, 6, 5, 4] 2 3 =
      Except.ok [Wire.start, Wire.byte 0x40, Wire.stop,
        Wire.start, Wire.byte 0xC2,
        Wire.byte 7, Wire.byte 8, Wire.byte 9,
        Wire.byte 4, Wire.byte 5, Wire.byte 6,
        Wire.stop, Wire.start, Wire.byte 0x8B, Wire.stop] := by
  rw [claim_c1_write_permutation [9, 8, 7, 6, 5, 4] 2 3 rfl]
  rfl

/-- Claim C2 (code bug): `encode_string` applied to the one-character
string "." does not return six blanks.  The first pass counts zero
non-dot characters, so the vector is sized 0; the lone leading dot
then fails the `j > 0` guard and falls into the character-encoding
branch, which executes `segments[0] = encode_char('.')` on the empty
vector — an unchecked out-of-bounds `operator[]` write, undefined
behaviour, modelled here as `none`. -/
theorem claim_c2_lone_dot_faults : encode_string (strOf ".") = none := rfl

/-- Claim C3 (corrected), counterexample: `number` does not complete
without failure for every input.  At 1234567 the formatted text has 7
characters, `encode_string` yields a 7-entry sequence, and the
permuted access of `write` at loop index 6 targets source index 8 —
`std::vector::at` throws. -/
theorem claim_c3_counterexample : (number 1234567 7).isOk = false := by decide

/-- Claim C3 as amended: for every value whose width-6 decimal
formatting fits the display (at most 6 digits, i.e. `num ≤ 999999`),
`number` completes without failure — the text-to-segment pipeline pads
to exactly 6 entries and `write` succeeds; no error branch is
reached. -/
theorem claim_c3_amended (num brightness_ : Nat) (h : num ≤ 999999) :
    (number num brightness_).isOk = true := by
  have hmod : num % 4294967296 = num := Nat.mod_eq_of_lt (by omega)
  have h10 : (10 : Nat) ^ 6 = 1000000 := by norm_num
  have hlen6 : (decRepr num).length ≤ 6 :=
    decRepr_length_le num 6 (by omega) (by omega)
  have hfl : (fmt6 num).length = 6 := fmt6_length num hlen6
  have henc := encode_string_no_dot (fmt6 num) (fmt6_no_dot num)
  rw [hfl] at henc
  have hmaplen :
      ((fmt6 num).map encode_char ++
        List.replicate (6 - 6) (encode_char 32)).length = 6 := by
    rw [List.length_append, List.length_map, List.length_replicate, hfl]
  unfold number
  rw [hmod, henc]
  show (write ((fmt6 num).map encode_char ++
    List.replicate (6 - 6) (encode_char 32)) 0 brightness_).isOk = true
  rw [write_six _ 0 brightness_ hmaplen]
  rfl

/-- Witness for the amended C3 at value 7, brightness 7. -/
theorem claim_c3_witness : 7 ≤ 999999 ∧ (number 7 7).isOk = true :=
  ⟨by omega, claim_c3_amended 7 7 (by omega)⟩

/-- Claim C4 (corrected), counterexample: at the 1-entry sequence [5]
and position 0, `write` does not produce the claimed transaction
(Data command, start, address, the sequence's bytes, stop,
Display-control): its first permuted access is out of bounds, so the
transaction is cut short after the address byte. -/
theorem claim_c4_counterexample :
    write [5] 0 7 ≠
      Except.ok (dataCmd ++ [Wire.start, Wire.byte (TM1637_CMD2 ||| min 0 5)] ++
        [Wire.byte 5] ++ [Wire.stop] ++ dspCtrl 7) := by
  intro h
  have herr : write [5] 0 7 =
      Except.error (dataCmd ++ [Wire.start, Wire.byte (TM1637_CMD2 ||| min 0 5)]) :=
    rfl
  rw [herr] at h
  exact Except.noConfusion h

/-- Claim C4 as amended (restricted to 6-entry sequences, the length
the chip expects): `write` produces exactly the wire transaction Data
command (start, 0x40, stop); start; address byte `0xC0 | min(pos,5)`;
the six segment bytes (in the wiring permutation); stop; then the
Display-control command with byte `0x80 | 0x08 | brightness`. -/
theorem claim_c4_transaction (s0 s1 s2 s3 s4 s5 pos brightness_ : Nat) :
    write [s0, s1, s2, s3, s4, s5] pos brightness_ =
      Except.ok ([Wire.start, Wire.byte TM1637_CMD1, Wire.stop] ++
        [Wire.start, Wire.byte (TM1637_CMD2 ||| min pos 5)] ++
        [Wire.byte s2, Wire.byte s1, Wire.byte s0,
         Wire.byte s5, Wire.byte s4, Wire.byte s3] ++
        [Wire.stop] ++
        [Wire.start, Wire.byte (TM1637_CMD3 ||| TM1637_DSP_ON ||| brightness_),
         Wire.stop]) := rfl

/-- Claim C5: `brightness` stores exactly `val & 0b111`, returns that
stored value, and re-issues the Data command followed by the
Display-control command (built from the new value), regardless of the
previous brightness. -/
theorem claim_c5_brightness (brightness_old val : Nat) :
    brightness brightness_old val =
      (val &&& 0x07, val &&& 0x07, dataCmd ++ dspCtrl (val &&& 0x07)) := rfl

/-- Claim C6: for every string in which each '.' is preceded by at
least one already-emitted segment (equivalently: the string does not
start with '.'), `encode_string` equals the dot-merging fold
`mergeDots`, in which each '.' ORs the MSB into the immediately
preceding segment byte and occupies no slot of its own, followed by
blank padding to 6 entries. -/
theorem claim_c6_dots_merge (cs : List Nat) (h : cs.head? ≠ some 46) :
    encode_string cs =
      some (mergeDots [] cs ++
        List.replicate (6 - (mergeDots [] cs).length) (encode_char 32)) := by
  have hloop := encodeLoop_eq_mergeDots cs [] (nondot cs) (fun _ => h) rfl
  simp only [List.nil_append, List.length_nil] at hloop
  simp only [encode_string, hloop, Option.map_some']

/-- Witness for C6 at "1.2": first entry `encode_char('1') | 0x80 =
0x86`, second `encode_char('2') = 0x5B`, four blanks. -/
theorem claim_c6_witness :
    encode_string (strOf "1.2") = some [0x86, 0x5B, 0, 0, 0, 0] := by
  rw [claim_c6_dots_merge (strOf "1.2") (by decide)]
  rfl

/-- Claim C7: for every string with `1 ≤ d ≤ 6` non-dot characters
whose dots all follow an emitted segment, `encode_string` returns a
sequence of length exactly 6: the `d` encoded characters in order
(dots merged into their left neighbour) followed by `6 - d` blank
pads. -/
theorem claim_c7_length_pad (cs : List Nat) (h : cs.head? ≠ some 46)
    (h1 : 1 ≤ nondot cs) (h6 : nondot cs ≤ 6) :
    encode_string cs =
      some (mergeDots [] cs ++ List.replicate (6 - nondot cs) (encode_char 32)) ∧
    (mergeDots [] cs).length = nondot cs ∧
    (mergeDots [] cs ++ List.replicate (6 - nondot cs) (encode_char 32)).length
      = 6 := by
  have hlen := mergeDots_length cs [] (fun _ => h)
  simp only [List.length_nil, Nat.zero_add] at hlen
  refine ⟨?_, hlen, ?_⟩
  · have hloop := encodeLoop_eq_mergeDots cs [] (nondot cs) (fun _ => h) rfl
    simp only [List.nil_append, List.length_nil] at hloop
    simp only [encode_string, hloop, Option.map_some', hlen]
  · rw [List.length_append, List.length_replicate, hlen]
    omega

/-- Witness for C7 at "12345": the 5 encoded digit patterns followed
by one blank pad. -/
theorem claim_c7_witness :
    encode_string (strOf "12345") =
      some [0x06, 0x5B, 0x4F, 0x66, 0x6D, 0x00] := by
  have h := claim_c7_length_pad (strOf "12345") (by decide) (by decide) (by decide)
  rw [h.1]
  rfl

set_option maxRecDepth 8000 in
/-- Claim C8: over the whole `char` value range, `encode_char` agrees
with the spec's priority description `encode_char_spec` — space →
blank, '*' → star, '-' → dash, 'A'-'Z' → letter pattern, 'a'-'z' → the
same letter pattern, '0'-'9' → digit pattern, everything else
(including '.') → the star pattern. -/
theorem claim_c8_encode_char_refines_spec :
    ∀ ch : Nat, ch < 256 → encode_char ch = encode_char_spec ch := by decide

/-- Witness for C8 at '.' (code 46): outside every range, so the star
pattern. -/
theorem claim_c8_witness : encode_char 46 = star_pattern :=
  (claim_c8_encode_char_refines_spec 46 (by decide)).trans (by rfl)

/-- Claim C9: the `colon` flag of `show` has no influence on anything:
from the same driver state, both calls produce identical wire output
and identical resulting state. -/
theorem claim_c9_colon_no_op (str : List Nat) (c1 c2 : Bool)
    (brightness_ : Nat) :
    show' str c1 brightness_ = show' str c2 brightness_ := rfl

/-- Claim C10: for every segment sequence of length 1 or 2 and every
position, the first permuted access of `write` targets index 2, out of
bounds, so `write` raises right after the address byte: the error
trace ends with the address byte and contains no segment byte. -/
theorem claim_c10_short_sequence_raises (segments : List Nat)
    (pos brightness_ : Nat) (h : segments.length = 1 ∨ segments.length = 2) :
    write segments pos brightness_ =
      Except.error (dataCmd ++ [Wire.start, Wire.byte (TM1637_CMD2 ||| min pos 5)]) := by
  rcases segments with _ | ⟨a, _ | ⟨b, _ | ⟨c, t⟩⟩⟩
  · simp only [List.length_nil] at h
    omega
  · rfl
  · rfl
  · simp only [List.length_cons] at h
    omega

/-- Witness for C10 at the 1-entry sequence [0], position 9 (clamped
to 5), brightness 4. -/
theorem claim_c10_witness :
    write [0] 9 4 =
      Except.error (dataCmd ++ [Wire.start, Wire.byte (TM1637_CMD2 ||| min 9 5)]) :=
  claim_c10_short_sequence_raises [0] 9 4 (Or.inl rfl)

end TM1637
